import Mathlib

/-!
Verification of gh-wrapped-cli (TypeScript sources under src/).

Shallow embedding conventions:
* Dates are modelled as natural numbers.  A contribution-day date is the
  number of days since the Unix epoch, so the JavaScript comparison
  new Date(a.date).getTime() - new Date(b.date).getTime() is the comparison
  of the two numbers, and new Date(d).getDay() is (d + 4) % 7 because
  1970-01-01 was a Thursday.  A commit author date is the number of hours
  since the epoch, so new Date(t).getHours() is t % 24.  (The code only
  consumes dates through these projections.)
* JavaScript numbers holding API counts are modelled as Nat; percentages
  and growth ratios, which divide, are modelled as exact rationals.  The
  literal 0.4 of analytics.ts is the exact rational 2/5; the double
  closest to 0.4 differs from it by less than 1e-16, which cannot change
  any comparison with the integer operands the code feeds it.
* Array.prototype.sort is stable (ECMAScript 2019), so it is modelled by a
  stable insertion sort parameterised by the boolean comparator.
* JavaScript objects used as string-keyed accumulator maps are modelled as
  association lists in insertion order, read through the first matching key.
* Fallible operations return Except; the interactive token loop of
  index.tsx is modelled over the (finite) list of tokens the user types.
-/

/-- Boolean test that the first list of characters is an initial segment of
the second; used to model JavaScript String.prototype.includes. -/
def prefB : List Char → List Char → Bool
  | [], _ => true
  | _ :: _, [] => false
  | a :: as, b :: bs => a == b && prefB as bs

/-- Boolean test that the first list of characters occurs contiguously in
the second. -/
def subL (t : List Char) : List Char → Bool
  | [] => prefB t []
  | b :: bs => prefB t (b :: bs) || subL t bs

/-- Model of JavaScript s.includes(sub). -/
def strContains (s sub : String) : Bool := subL sub.toList s.toList

/-- Stable insertion of an element into a list: the element is placed in
front of the first entry it compares le with. -/
def insertLe {α : Type} (le : α → α → Bool) (a : α) : List α → List α
  | [] => [a]
  | b :: bs => if le a b then a :: b :: bs else b :: insertLe le a bs

/-- Stable sort by a boolean comparator; models Array.prototype.sort, which
is required to be stable, for the total preorders the code sorts by. -/
def sortByLe {α : Type} (le : α → α → Bool) : List α → List α
  | [] => []
  | a :: as => insertLe le a (sortByLe le as)

/-- The list t occurs as a contiguous segment of l. -/
def runIn {α : Type} (t l : List α) : Prop := ∃ u v, u ++ t ++ v = l

/-- The list t is a trailing segment of l. -/
def tailIn {α : Type} (t l : List α) : Prop := ∃ u, u ++ t = l

/-- Association-list read with default 0: the first entry with the given
key, or 0; models m[k] || 0 on a JavaScript object. -/
def getOr0 (m : List (String × Nat)) (k : String) : Nat :=
  match m.find? (fun p => p.1 == k) with
  | some p => p.2
  | none => 0

/-- Models m[k] = (m[k] || 0) + v on a JavaScript object used as a map:
the first entry with the key is increased, otherwise the entry is appended. -/
def setAdd (m : List (String × Nat)) (k : String) (v : Nat) : List (String × Nat) :=
  match m with
  | [] => [(k, v)]
  | (k', v') :: rest => if k' = k then (k', v' + v) :: rest else (k', v') :: setAdd rest k v

/-- One day of the contribution calendar (types.ts ContributionDay): the
date (days since epoch, see the header comment) and the contribution count. -/
structure ContributionDay where
  date : Nat
  count : Nat
deriving DecidableEq

/-- A commit author record (types.ts Commit.commit.author); only the date
is consumed by the analytics. -/
structure CommitAuthor where
  date : Nat
deriving DecidableEq

/-- The nested commit payload of a Commit. -/
structure CommitData where
  author : CommitAuthor
deriving DecidableEq

/-- A commit as consumed by the analytics (types.ts Commit): the nested
author date and the source repository name. -/
structure Commit where
  commit : CommitData
  repository : String
deriving DecidableEq

/-- A repository as consumed by the paging code (types.ts Repository);
only presence in the list matters to the claims below. -/
structure Repository where
  name : String
  stargazers_count : Nat
deriving DecidableEq

/-- Model of new Date(d).getDay() for a date d in days since epoch:
0 is Sunday, 6 is Saturday; 1970-01-01 was a Thursday (= 4). -/
def getDay (d : Nat) : Nat := (d + 4) % 7

/-- Model of new Date(t).getHours() for a commit author date t in hours
since epoch. -/
def getHours (t : Nat) : Nat := t % 24

/-- The result record of StatsAnalyzer.calculateStreak. -/
structure Streaks where
  longest : Nat
  current : Nat
deriving DecidableEq

/-- The date-ascending sort performed at analytics.ts lines 24-26. -/
def sortContributions (cs : List ContributionDay) : List ContributionDay :=
  sortByLe (fun a b => decide (a.date ≤ b.date)) cs

/-- The test sorted[i].count > 0 of the streak loops. -/
def countPos (c : ContributionDay) : Bool := decide (0 < c.count)

/-- One step of the forward scan of analytics.ts lines 28-35, kept generic
in the activity predicate: the state is (tempStreak, longestStreak). -/
def streakStepB {α : Type} (p : α → Bool) (s : Nat × Nat) (a : α) : Nat × Nat :=
  if p a then (s.1 + 1, max s.2 (s.1 + 1)) else (0, s.2)

/-- Length of the trailing run of entries satisfying p; this is what the
backward loop of analytics.ts lines 38-44 computes (it walks from the end
and breaks at the first inactive entry). -/
def trailLen {α : Type} (p : α → Bool) (l : List α) : Nat :=
  (l.reverse.takeWhile p).length

/-- StatsAnalyzer.calculateStreak (analytics.ts lines 15-50): sort by date,
scan forward for the longest streak, scan backward for the current streak. -/
def calculateStreak (contributions : List ContributionDay) : Streaks :=
  let sorted := sortContributions contributions
  { longest := (sorted.foldl (streakStepB countPos) (0, 0)).2
    current := trailLen countPos sorted }

/-- An entry of the top-language list (types.ts Language'). -/
structure Language' where
  name : String
  bytes : Nat
  percentage : ℚ
  color : String
deriving DecidableEq

/-- The color table of StatsAnalyzer.getLanguageColor (analytics.ts 68-89). -/
def languageColors : List (String × String) :=
  [("JavaScript", "#f1e05a"), ("TypeScript", "#3178c6"), ("Python", "#3572A5"),
   ("Java", "#b07219"), ("C", "#555555"), ("C++", "#f34b7d"), ("C#", "#178600"),
   ("PHP", "#4F5D95"), ("Ruby", "#701516"), ("Go", "#00ADD8"), ("Rust", "#dea584"),
   ("Swift", "#ffac45"), ("Kotlin", "#A97BFF"), ("HTML", "#e34c26"),
   ("CSS", "#563d7c"), ("Shell", "#89e051")]

/-- StatsAnalyzer.getLanguageColor: table lookup with default #858585. -/
def getLanguageColor (language : String) : String :=
  match languageColors.find? (fun p => p.1 == language) with
  | some p => p.2
  | none => "#858585"

/-- The total of analytics.ts line 53: the sum of all byte counts. -/
def totalBytes (languageStats : List (String × Nat)) : Nat :=
  (languageStats.map (fun p => p.2)).sum

/-- The record built for one entry at analytics.ts lines 56-61. -/
def mkLangEntry (total : Nat) (p : String × Nat) : Language' :=
  { name := p.1
    bytes := p.2
    percentage := ((p.2 : ℚ) / (total : ℚ)) * 100
    color := getLanguageColor p.1 }

/-- StatsAnalyzer.calculateTopLanguages (analytics.ts lines 52-66).  The
input models Object.entries(languageStats) in insertion order; the entries
are mapped to records, sorted by the comparator
(a, b) => b.bytes - a.bytes (descending bytes), and cut to the first 5. -/
def calculateTopLanguages (languageStats : List (String × Nat)) : List Language' :=
  ((sortByLe (fun a b => decide (b.bytes ≤ a.bytes))
      (languageStats.map (mkLangEntry (totalBytes languageStats)))).take 5)

/-- Increment the i-th cell of a list of counters; models hourCounts[h]++. -/
def bumpAt : List Nat → Nat → List Nat
  | [], _ => []
  | x :: xs, 0 => (x + 1) :: xs
  | x :: xs, i + 1 => x :: bumpAt xs i

/-- The 24-bucket histogram built by analytics.ts lines 92-97. -/
def hourCountsOf (commits : List Commit) : List Nat :=
  commits.foldl (fun l c => bumpAt l (getHours c.commit.author.date)) (List.replicate 24 0)

/-- First index of a value in a list of naturals; models Array.indexOf at a
value known to be present (absence gives the length where JavaScript gives
-1, and the code only ever looks up the attained maximum). -/
def idxOfN (a : Nat) : List Nat → Nat
  | [] => 0
  | b :: bs => if b = a then 0 else idxOfN a bs + 1

/-- StatsAnalyzer.calculatePeakHour (analytics.ts lines 91-101): histogram,
Math.max over the buckets, then indexOf of the maximum. -/
def calculatePeakHour (commits : List Commit) : Nat :=
  idxOfN ((hourCountsOf commits).foldl Nat.max 0) (hourCountsOf commits)

/-- An archetype; the emoji, description and traits strings of analytics.ts
are presentation-only and are identified by the name here. -/
structure Archetype where
  name : String
deriving DecidableEq

/-- The weekend filter of analytics.ts lines 132-135: a Saturday or Sunday
entry with a positive count. -/
def isWeekendActive (c : ContributionDay) : Bool :=
  (getDay c.date == 0 || getDay c.date == 6) && decide (0 < c.count)

/-- StatsAnalyzer.determineArchetype (analytics.ts lines 103-164): the
ordered if/else decision list.  totalCommits is accepted and ignored
exactly as in the source. -/
def determineArchetype (peakHour totalCommits totalPRs : Nat)
    (contributions : List ContributionDay) : Archetype :=
  if 2 ≤ peakHour ∧ peakHour ≤ 5 then { name := "The Midnight Warrior" }
  else if 5 ≤ peakHour ∧ peakHour ≤ 9 then { name := "The Early Bird" }
  else
    let weekendCommits := (contributions.filter isWeekendActive).length
    if (weekendCommits : ℚ) > (contributions.length : ℚ) * 0.4 then
      { name := "The Weekend Warrior" }
    else if 50 < totalPRs then { name := "The Merge Master" }
    else { name := "The Consistent Coder" }

/-- An achievement of the fixed catalog (types.ts Achievement); the emoji
and description are presentation-only and omitted. -/
structure Achievement where
  id : String
  name : String
  rarity : String
  unlocked : Bool
deriving DecidableEq

/-- The Partial WrappedStats record consumed by calculateAchievements:
every field may be absent, and absent numeric fields read as 0 via the
JavaScript (x || 0) idiom (which also sends a present 0 to 0). -/
structure PartialStats where
  longestStreak : Option Nat
  totalCommits : Option Nat
  totalStars : Option Nat
  totalPRs : Option Nat
  peakHour : Option Nat
  topLanguages : Option (List Language')

/-- The (x || 0) read of an optional numeric stat. -/
def orZero (x : Option Nat) : Nat := x.getD 0

/-- The fixed 20-entry achievement catalog of analytics.ts lines 170-340,
with each unlocked flag computed from the stats exactly as in the source. -/
def allAchievements (stats : PartialStats) : List Achievement :=
  [{ id := "legend", name := "Living Legend", rarity := "mythic",
     unlocked := decide (365 ≤ orZero stats.longestStreak) },
   { id := "ultra-prolific", name := "Ultra Prolific", rarity := "mythic",
     unlocked := decide (5000 ≤ orZero stats.totalCommits) },
   { id := "viral-sensation", name := "Viral Sensation", rarity := "mythic",
     unlocked := decide (10000 ≤ orZero stats.totalStars) },
   { id := "century-club", name := "Century Club", rarity := "legendary",
     unlocked := decide (100 ≤ orZero stats.longestStreak) },
   { id := "commit-machine", name := "Commit Machine", rarity := "legendary",
     unlocked := decide (1000 ≤ orZero stats.totalCommits) },
   { id := "super-star", name := "GitHub Super Star", rarity := "legendary",
     unlocked := decide (1000 ≤ orZero stats.totalStars) },
   { id := "half-year-streak", name := "Half Year Hero", rarity := "epic",
     unlocked := decide (180 ≤ orZero stats.longestStreak) },
   { id := "pr-champion", name := "PR Champion", rarity := "epic",
     unlocked := decide (200 ≤ orZero stats.totalPRs) },
   { id := "mega-productive", name := "Mega Productive", rarity := "epic",
     unlocked := decide (2500 ≤ orZero stats.totalCommits) },
   { id := "celebrity", name := "Open Source Celebrity", rarity := "epic",
     unlocked := decide (500 ≤ orZero stats.totalStars) },
   { id := "night-owl", name := "Night Owl", rarity := "rare",
     unlocked := decide (0 ≤ orZero stats.peakHour ∧ orZero stats.peakHour ≤ 5) },
   { id := "pr-hero", name := "Pull Request Hero", rarity := "rare",
     unlocked := decide (100 ≤ orZero stats.totalPRs) },
   { id := "polyglot", name := "Polyglot", rarity := "rare",
     unlocked := decide (5 ≤ (stats.topLanguages.getD []).length) },
   { id := "popular", name := "Rising Star", rarity := "rare",
     unlocked := decide (100 ≤ orZero stats.totalStars) },
   { id := "prolific", name := "Prolific Coder", rarity := "rare",
     unlocked := decide (500 ≤ orZero stats.totalCommits) },
   { id := "getting-started", name := "Getting Started", rarity := "common",
     unlocked := decide (0 < orZero stats.totalCommits) },
   { id := "consistent", name := "Consistent Contributor", rarity := "common",
     unlocked := decide (30 ≤ orZero stats.longestStreak) },
   { id := "active", name := "Active Developer", rarity := "common",
     unlocked := decide (100 ≤ orZero stats.totalCommits) },
   { id := "collaborator", name := "Team Collaborator", rarity := "common",
     unlocked := decide (20 ≤ orZero stats.totalPRs) },
   { id := "noticed", name := "Getting Noticed", rarity := "common",
     unlocked := decide (10 ≤ orZero stats.totalStars) }]

/-- StatsAnalyzer.calculateAchievements (analytics.ts lines 166-344):
return the unlocked members of the catalog. -/
def calculateAchievements (stats : PartialStats) : List Achievement :=
  (allAchievements stats).filter (fun a => a.unlocked)

/-- The stats record consumed by calculateScore (github.ts lines 232-242). -/
structure ScoreStats where
  totalCommits : Nat
  totalPRs : Nat
  totalRepos : Nat
  totalStars : Nat
  longestStreak : Nat
  currentStreak : Nat

/-- calculateScore (github.ts lines 232-242); Math.floor of an integer sum
is the sum itself. -/
def calculateScore (stats : ScoreStats) : Nat :=
  stats.totalCommits * 1 + stats.totalPRs * 5 + stats.totalRepos * 2 +
    stats.totalStars * 3 + stats.longestStreak * 10 + stats.currentStreak * 8

/-- The tier type of github.ts line 213. -/
inductive Tier where
  | origin
  | prime
  | master
deriving DecidableEq

/-- The display order of the tiers, for the monotonicity statement. -/
def tierRank : Tier → Nat
  | .origin => 0
  | .prime => 1
  | .master => 2

/-- determineTier (github.ts lines 251-259) with the TIER_THRESHOLDS. -/
def determineTier (score : Nat) : Tier :=
  if 3000 ≤ score then .master
  else if 1000 ≤ score then .prime
  else .origin

/-- One year summary (types.ts YearComparison); the fields not consumed by
generateComparisonStats are kept for shape. -/
structure YearComparison where
  year : Nat
  totalCommits : Nat
  totalPRs : Nat
  totalIssues : Nat
  longestStreak : Nat
  peakHour : Nat

/-- The growth record of ComparisonStats. -/
structure GrowthStats where
  commits : ℤ
  prs : ℤ
  issues : ℤ
  streak : ℤ
deriving DecidableEq

/-- The full ComparisonStats record. -/
structure ComparisonStats where
  year2024 : YearComparison
  year2025 : YearComparison
  growth : GrowthStats

/-- The local calculateGrowth of generateComparisonStats (analytics.ts
lines 552-555); Math.round is the round of Mathlib, which also takes
halves up towards positive infinity. -/
def calculateGrowth (old current : Nat) : ℤ :=
  if old = 0 then (if 0 < current then 100 else 0)
  else round ((((current : ℚ) - (old : ℚ)) / (old : ℚ)) * 100)

/-- StatsAnalyzer.generateComparisonStats (analytics.ts lines 548-567). -/
def generateComparisonStats (year2024Data year2025Data : YearComparison) : ComparisonStats :=
  { year2024 := year2024Data
    year2025 := year2025Data
    growth :=
      { commits := calculateGrowth year2024Data.totalCommits year2025Data.totalCommits
        prs := calculateGrowth year2024Data.totalPRs year2025Data.totalPRs
        issues := calculateGrowth year2024Data.totalIssues year2025Data.totalIssues
        streak := calculateGrowth year2024Data.longestStreak year2025Data.longestStreak } }

/-- The page-fetch loop of GitHubClient.getRepositories (github.ts lines
35-53): api p is the page-p response (at most 100 entries per the per_page
request parameter); the loop walks pages while the guard page <= 10 holds
and the previous response was non-empty. -/
def reposFrom (api : Nat → List Repository) (page : Nat) : List Repository :=
  if _h : page ≤ 10 then
    let data := api page
    if data.length = 0 then [] else data ++ reposFrom api (page + 1)
  else []
termination_by 11 - page
decreasing_by omega

/-- GitHubClient.getRepositories (github.ts lines 33-69): run the loop from
page 1 and fail when nothing was found. -/
def getRepositories (api : Nat → List Repository) : Except String (List Repository) :=
  let repos := reposFrom api 1
  if repos.length = 0 then .error "No public repositories found for this user."
  else .ok repos

/-- A concrete one-page API response used to exercise the paging loop. -/
def onePageApi : Nat → List Repository :=
  fun p => if p = 1 then [{ name := "demo-repo", stargazers_count := 0 }] else []

/-- The not-found message of GitHubClient.getUser (github.ts line 24). -/
def userNotFoundMsg (username : String) : String :=
  "GitHub user \"" ++ username ++ "\" not found. Please check the username and try again."

/-- The rate-limit message of GitHubClient.getUser (github.ts line 27). -/
def restRateLimitMsg : String :=
  "GitHub API rate limit exceeded. Please try again later or use a GitHub token."

/-- The error mapping of GitHubClient.getUser (github.ts lines 22-30):
status and message of the caught request error, in source order. -/
def restGetUserError (username : String) (status : Option Nat) (message : String) : String :=
  if status = some 404 then userNotFoundMsg username
  else if status = some 403 then restRateLimitMsg
  else "Failed to fetch user: " ++ message

/-- The authentication-required message thrown by
GitHubGraphQLClient.getCompleteStats (github-graphql-fixed.ts lines 240-253). -/
def authRequiredMsg : String :=
  "⚠️  AUTHENTICATION REQUIRED\n\nGitHub's API requires authentication to access contribution data.\n\nWhat you need:\n1. Create a Personal Access Token at: https://github.com/settings/tokens\n2. Minimum scope: read:user (for contribution data)\n3. Run this app again and provide the token when prompted\n\nWhy this is needed:\n- Without a token: Only public repository data is visible\n- With a token: Full contribution calendar and statistics\n\nGet your token now: https://github.com/settings/tokens/new?description=GitHub%20Wrapped&scopes=read:user"

/-- The invalid-token message of getCompleteStats (lines 277-280). -/
def gqlInvalidTokenMsg : String :=
  "Invalid GitHub token. Please check your token and try again.\n\nGet a new token at: https://github.com/settings/tokens\nRequired scope: read:user"

/-- The rate-limit message of getCompleteStats (line 284). -/
def gqlRateLimitMsg : String :=
  "GitHub API rate limit exceeded. Please use a GitHub token for higher limits."

/-- The message thrown when the user payload is missing (line 236). -/
def fetchUserDataFailedMsg : String :=
  "Failed to fetch user data. Please check the username or token."

/-- The catch block of getCompleteStats (github-graphql-fixed.ts lines
263-288): the caught error carries an optional HTTP status and a message,
and the checks run in source order. -/
def mapGraphQLError (username : String) (status : Option Nat) (message : String) : String :=
  if strContains message "AUTHENTICATION REQUIRED" then message
  else if strContains message "NOT_FOUND" || strContains message "Could not resolve to a User" then
    userNotFoundMsg username
  else if status = some 401 || strContains message "Bad credentials" then gqlInvalidTokenMsg
  else if status = some 403 || strContains message "rate limit" then gqlRateLimitMsg
  else "Failed to fetch data: " ++ message

/-- One entry of commitContributionsByRepository as consumed by the GraphQL
client: repository name, optional primary language, and the contribution
totalCount. -/
structure RepoContribution where
  repoName : String
  primaryLanguage : Option String
  contribTotalCount : Nat

/-- The contributionsCollection payload (only the part the claims need). -/
structure ContributionsCollectionData where
  commitContributionsByRepository : List RepoContribution

/-- The user payload of the GraphQL response. -/
structure UserData where
  contributionsCollection : Option ContributionsCollectionData

/-- GitHubGraphQLClient.getCompleteStats (github-graphql-fixed.ts lines
109-289), abstracted over the request outcome: a transport or API error
with optional status and message, or a response whose user field may be
null.  The two validation throws inside the try block land in the same
catch and therefore also pass through mapGraphQLError. -/
def getCompleteStats (username : String)
    (response : Except (Option Nat × String) (Option UserData)) : Except String UserData :=
  match response with
  | .error (status, message) => .error (mapGraphQLError username status message)
  | .ok none => .error (mapGraphQLError username none fetchUserDataFailedMsg)
  | .ok (some userData) =>
    match userData.contributionsCollection with
    | none => .error (mapGraphQLError username none authRequiredMsg)
    | some _ => .ok userData

/-- The rate-limit test of index.tsx line 245: only errors whose message
mentions the rate limit or 403 send the CLI into the token prompt loop. -/
def shouldPromptToken (message : String) : Bool :=
  strContains message "rate limit" || strContains message "403"

/-- Outcome of the initial fetch attempt of index.tsx main (lines 240-250). -/
inductive MainOutcome (α : Type) where
  | done (value : α)
  | promptLoop (message : String)
  | failed (message : String)

/-- The catch of the first fetchAllData call in index.tsx main: success
renders, a rate-limit/403 message enters promptTokenWithRetry, anything
else is rethrown. -/
def initialFetchDispatch {α : Type} (result : Except String α) : MainOutcome α :=
  match result with
  | .ok value => .done value
  | .error message =>
    if shouldPromptToken message then .promptLoop message else .failed message

/-- promptTokenWithRetry (index.tsx lines 70-126) over the finite list of
tokens the user types: an empty token exits (none), a fetch success returns
the data, and a fetch failure prints and asks again. -/
def promptTokenWithRetry {α : Type} (fetchData : String → Except String α) :
    List String → Option α
  | [] => none
  | token :: rest =>
    if token = "" then none
    else
      match fetchData token with
      | .ok value => some value
      | .error _ => promptTokenWithRetry fetchData rest

/-- One repository of an account, seen by both client strategies: the REST
listLanguages byte map, and the GraphQL primary language and contribution
count for the same repository. -/
structure AccountRepo where
  name : String
  languages : List (String × Nat)
  primaryLanguage : Option String
  commitContribCount : Nat

/-- GitHubClient.getLanguages (github.ts lines 159-179): sum the per-repo
per-language byte counts into one map. -/
def restGetLanguages (repos : List AccountRepo) : List (String × Nat) :=
  repos.foldl
    (fun languageStats repo =>
      repo.languages.foldl (fun st p => setAdd st p.1 p.2) languageStats)
    []

/-- GitHubGraphQLClient.getLanguages (github-graphql-fixed.ts lines
378-395): for each repository with a primary language, add the repository's
commit-contribution totalCount under that language. -/
def graphqlGetLanguages (repos : List AccountRepo) : List (String × Nat) :=
  repos.foldl
    (fun languageStats repo =>
      match repo.primaryLanguage with
      | none => languageStats
      | some lang => setAdd languageStats lang repo.commitContribCount)
    []

/-- The byte count of a language over an account, as the spec contract
states it: the sum over the repositories of the bytes of code written in
that language. -/
def bytesOfLanguage (repos : List AccountRepo) (lang : String) : Nat :=
  (repos.map (fun r => ((r.languages.filter (fun p => p.1 == lang)).map (fun p => p.2)).sum)).sum

/-- The commit-contribution count of a language over an account: the sum of
contribution counts of the repositories whose primary language it is. -/
def contribCountOfLanguage (repos : List AccountRepo) (lang : String) : Nat :=
  ((repos.filter (fun r => r.primaryLanguage == some lang)).map
    (fun r => r.commitContribCount)).sum

/-- A one-repository account on which the two strategies visibly disagree:
500 bytes of TypeScript, 3 commit contributions. -/
def c3Account : List AccountRepo :=
  [{ name := "demo", languages := [("TypeScript", 500)],
     primaryLanguage := some "TypeScript", commitContribCount := 3 }]

/-- Specification-side first-match evaluation of an ordered decision list:
the archetype of the first rule whose condition fires, else the default. -/
def firstMatch : List (Bool × Archetype) → Archetype → Archetype
  | [], dflt => dflt
  | (cond, a) :: rest, dflt => if cond then a else firstMatch rest dflt

-- ## Sanity examples

example : calculateStreak
    [{ date := 2, count := 1 }, { date := 0, count := 3 }, { date := 1, count := 0 }] =
    { longest := 1, current := 1 } := by decide

example : calculateStreak
    [{ date := 0, count := 1 }, { date := 1, count := 2 }, { date := 2, count := 0 },
     { date := 3, count := 1 }] = { longest := 2, current := 1 } := by decide

example : calculatePeakHour [] = 0 := by decide

example : determineTier 2999 = Tier.prime := by decide

example : calculateGrowth 0 5 = 100 := by decide

example : calculateGrowth 0 0 = 0 := by decide

-- ## Helper lemmas

theorem tierRank_mono {s s' : Nat} (h : s ≤ s') :
    tierRank (determineTier s) ≤ tierRank (determineTier s') := by
  unfold determineTier
  split_ifs <;> simp [tierRank] <;> omega

/-- Claim C9: calculateScore is the exact weighted sum of the six stats,
determineTier totally partitions scores at the 1000 and 3000 thresholds,
and the tier is monotone in the score and in each individual stat. -/
theorem calculateScore_determineTier_spec (stats stats' : ScoreStats) (score score' : Nat) :
    calculateScore stats =
      stats.totalCommits * 1 + stats.totalPRs * 5 + stats.totalRepos * 2 +
        stats.totalStars * 3 + stats.longestStreak * 10 + stats.currentStreak * 8 ∧
    (determineTier score = Tier.master ↔ 3000 ≤ score) ∧
    (determineTier score = Tier.prime ↔ 1000 ≤ score ∧ score < 3000) ∧
    (determineTier score = Tier.origin ↔ score < 1000) ∧
    (score ≤ score' → tierRank (determineTier score) ≤ tierRank (determineTier score')) ∧
    (stats.totalCommits ≤ stats'.totalCommits → stats.totalPRs ≤ stats'.totalPRs →
      stats.totalRepos ≤ stats'.totalRepos → stats.totalStars ≤ stats'.totalStars →
      stats.longestStreak ≤ stats'.longestStreak → stats.currentStreak ≤ stats'.currentStreak →
      tierRank (determineTier (calculateScore stats)) ≤
        tierRank (determineTier (calculateScore stats'))) := by
  refine ⟨rfl, ?_, ?_, ?_, fun h => tierRank_mono h, ?_⟩
  · unfold determineTier; split_ifs <;> simp_all <;> omega
  · unfold determineTier; split_ifs <;> simp_all <;> omega
  · unfold determineTier; split_ifs <;> simp_all <;> omega
  · intro h1 h2 h3 h4 h5 h6
    apply tierRank_mono
    unfold calculateScore
    have := Nat.mul_le_mul_right 5 h2
    omega

theorem calculateScore_determineTier_witness :
    tierRank (determineTier 500) ≤ tierRank (determineTier 2000) :=
  (calculateScore_determineTier_spec ⟨0, 0, 0, 0, 0, 0⟩ ⟨0, 0, 0, 0, 0, 0⟩ 500
    2000).2.2.2.2.1 (by decide)

theorem calculateGrowth_pos (old current : Nat) (h : old ≠ 0) :
    calculateGrowth old current =
      (200 * ((current : ℤ) - (old : ℤ)) + (old : ℤ)) / (2 * (old : ℤ)) := by
  unfold calculateGrowth
  rw [if_neg h, round_eq]
  have hq : (old : ℚ) ≠ 0 := Nat.cast_ne_zero.mpr h
  have hrw : (((current : ℚ) - (old : ℚ)) / (old : ℚ)) * 100 + 1 / 2 =
      (((200 * ((current : ℤ) - (old : ℤ)) + (old : ℤ) : ℤ) : ℚ) / ((2 * old : ℕ) : ℚ)) := by
    have h2 : ((2 * old : ℕ) : ℚ) ≠ 0 := by positivity
    field_simp
    push_cast
    ring
  rw [hrw, Rat.floor_intCast_div_natCast]
  push_cast
  ring_nf

/-- Claim C10: generateComparisonStats never divides by zero; each growth
component is total, equal to 100 or 0 when the old value is 0 (according to
whether the current value is positive), and equal to
round(((current - old) / old) * 100) when the old value is nonzero (which
is the explicit integer division shown in the last conjunct). -/
theorem generateComparisonStats_spec (year2024Data year2025Data : YearComparison) :
    (generateComparisonStats year2024Data year2025Data).growth.commits =
      calculateGrowth year2024Data.totalCommits year2025Data.totalCommits ∧
    (generateComparisonStats year2024Data year2025Data).growth.prs =
      calculateGrowth year2024Data.totalPRs year2025Data.totalPRs ∧
    (generateComparisonStats year2024Data year2025Data).growth.issues =
      calculateGrowth year2024Data.totalIssues year2025Data.totalIssues ∧
    (generateComparisonStats year2024Data year2025Data).growth.streak =
      calculateGrowth year2024Data.longestStreak year2025Data.longestStreak ∧
    (∀ old current : Nat, old = 0 → 0 < current → calculateGrowth old current = 100) ∧
    (∀ old current : Nat, old = 0 → current = 0 → calculateGrowth old current = 0) ∧
    (∀ old current : Nat, old ≠ 0 →
      calculateGrowth old current =
        round ((((current : ℚ) - (old : ℚ)) / (old : ℚ)) * 100)) ∧
    (∀ old current : Nat, old ≠ 0 →
      calculateGrowth old current =
        (200 * ((current : ℤ) - (old : ℤ)) + (old : ℤ)) / (2 * (old : ℤ))) := by
  refine ⟨rfl, rfl, rfl, rfl, ?_, ?_, ?_, fun old current h => calculateGrowth_pos old current h⟩
  · intro old current h hc
    simp [calculateGrowth, h, hc]
  · intro old current h hc
    simp [calculateGrowth, h, hc]
  · intro old current h
    simp [calculateGrowth, h]

theorem generateComparisonStats_witness : calculateGrowth 4 5 = 25 := by
  have h := (generateComparisonStats_spec ⟨0, 0, 0, 0, 0, 0⟩ ⟨0, 0, 0, 0, 0, 0⟩).2.2.2.2.2.2.2
    4 5 (by decide)
  rw [h]
  decide

/-- Claim C4: determineArchetype is an ordered first-match decision list
over peak hour, weekend ratio and PR count, in the source order, and for
peakHour = 5 the first (Midnight Warrior) rule wins regardless of the
other inputs.  The weekend condition counts the Saturday or Sunday entries
with positive count and compares against 0.4 times the number of entries. -/
theorem determineArchetype_spec (peakHour totalCommits totalPRs : Nat)
    (contributions : List ContributionDay) :
    determineArchetype peakHour totalCommits totalPRs contributions =
      firstMatch
        [(decide (2 ≤ peakHour ∧ peakHour ≤ 5), { name := "The Midnight Warrior" }),
         (decide (5 ≤ peakHour ∧ peakHour ≤ 9), { name := "The Early Bird" }),
         (decide (((contributions.countP isWeekendActive : ℚ)) >
            (contributions.length : ℚ) * 0.4), { name := "The Weekend Warrior" }),
         (decide (50 < totalPRs), { name := "The Merge Master" })]
        { name := "The Consistent Coder" } ∧
    determineArchetype 5 totalCommits totalPRs contributions =
      { name := "The Midnight Warrior" } := by
  constructor
  · unfold determineArchetype
    rw [List.countP_eq_length_filter]
    by_cases h1 : 2 ≤ peakHour ∧ peakHour ≤ 5
    · simp [firstMatch, h1]
    · by_cases h2 : 5 ≤ peakHour ∧ peakHour ≤ 9
      · simp [firstMatch, h1, h2]
      · by_cases h3 : ((contributions.filter isWeekendActive).length : ℚ) >
            (contributions.length : ℚ) * 0.4
        · simp [firstMatch, h1, h2, h3]
        · by_cases h4 : 50 < totalPRs <;> simp [firstMatch, h1, h2, h3, h4]
  · unfold determineArchetype
    norm_num

/-- Claim C5: calculateAchievements returns exactly the members of the
fixed 20-entry catalog whose threshold predicate holds of the stats:
membership in the result is membership in the catalog with the unlocked
flag true (so nothing outside the catalog ever appears), the four sample
thresholds read back as stated, and the returned ids are pairwise distinct
so each achievement appears at most once. -/
theorem calculateAchievements_spec (stats : PartialStats) :
    (∀ a, a ∈ calculateAchievements stats ↔ a ∈ allAchievements stats ∧ a.unlocked = true) ∧
    ((∃ a ∈ calculateAchievements stats, a.id = "century-club") ↔
      100 ≤ orZero stats.longestStreak) ∧
    ((∃ a ∈ calculateAchievements stats, a.id = "getting-started") ↔
      0 < orZero stats.totalCommits) ∧
    ((∃ a ∈ calculateAchievements stats, a.id = "polyglot") ↔
      5 ≤ (stats.topLanguages.getD []).length) ∧
    ((∃ a ∈ calculateAchievements stats, a.id = "viral-sensation") ↔
      10000 ≤ orZero stats.totalStars) ∧
    ((calculateAchievements stats).map (fun a => a.id)).Nodup := by
  refine ⟨fun a => List.mem_filter, ?_, ?_, ?_, ?_, ?_⟩
  · simp [calculateAchievements, allAchievements, List.mem_filter, and_assoc]
  · simp [calculateAchievements, allAchievements, List.mem_filter, and_assoc]
  · simp [calculateAchievements, allAchievements, List.mem_filter, and_assoc]
  · simp [calculateAchievements, allAchievements, List.mem_filter, and_assoc]
  · have hsub : ((calculateAchievements stats).map (fun a => a.id)).Sublist
        ((allAchievements stats).map (fun a => a.id)) :=
      ((allAchievements stats).filter_sublist).map (fun a => a.id)
    have hall : ((allAchievements stats).map (fun a => a.id)).Nodup := by
      simp only [allAchievements, List.map]
      decide
    exact hall.sublist hsub

theorem reposFrom_stop (api : Nat → List Repository) (page : Nat) (h : ¬ page ≤ 10) :
    reposFrom api page = [] := by
  rw [reposFrom]
  simp [h]

theorem reposFrom_go (api : Nat → List Repository) (page : Nat) (h : page ≤ 10) :
    reposFrom api page =
      (if (api page).length = 0 then [] else api page ++ reposFrom api (page + 1)) := by
  rw [reposFrom]
  simp [h]

theorem reposFrom_length_le (api : Nat → List Repository)
    (hcap : ∀ p, (api p).length ≤ 100) :
    ∀ fuel page, 11 - page ≤ fuel → (reposFrom api page).length ≤ 100 * fuel := by
  intro fuel
  induction fuel with
  | zero =>
    intro page hp
    rw [reposFrom_stop api page (by omega)]
    simp
  | succ n ih =>
    intro page hp
    by_cases h : page ≤ 10
    · rw [reposFrom_go api page h]
      by_cases hz : (api page).length = 0
      · simp [hz]
      · rw [if_neg hz, List.length_append]
        have h1 := hcap page
        have h2 := ih (page + 1) (by omega)
        omega
    · rw [reposFrom_stop api page h]
      simp
  
theorem reposFrom_agrees (api api' : Nat → List Repository)
    (hagree : ∀ p, 1 ≤ p → p ≤ 10 → api p = api' p) :
    ∀ fuel page, 11 - page ≤ fuel → 1 ≤ page → reposFrom api page = reposFrom api' page := by
  intro fuel
  induction fuel with
  | zero =>
    intro page hp _
    rw [reposFrom_stop api page (by omega), reposFrom_stop api' page (by omega)]
  | succ n ih =>
    intro page hp hpage
    by_cases h : page ≤ 10
    · rw [reposFrom_go api page h, reposFrom_go api' page h, hagree page hpage h,
        ih (page + 1) (by omega) (by omega)]
    · rw [reposFrom_stop api page h, reposFrom_stop api' page h]

/-- Claim C8: the getRepositories fetch loop reads at most the ten pages
1..10 (its result only depends on the responses for those pages), and when
every page response holds at most 100 repositories (the per_page cap), any
successfully returned list has at most 1000 entries.  The loop itself is a
total function (it is defined by recursion on 11 - page). -/
theorem getRepositories_spec (api api' : Nat → List Repository)
    (hcap : ∀ p, (api p).length ≤ 100)
    (hagree : ∀ p, 1 ≤ p → p ≤ 10 → api p = api' p) :
    (∀ repos, getRepositories api = Except.ok repos → repos.length ≤ 1000) ∧
    getRepositories api = getRepositories api' := by
  constructor
  · intro repos hok
    have hlen : (reposFrom api 1).length ≤ 1000 := by
      have := reposFrom_length_le api hcap 10 1 (by omega)
      omega
    unfold getRepositories at hok
    by_cases hz : (reposFrom api 1).length = 0
    · rw [if_pos hz] at hok
      simp at hok
    · rw [if_neg hz] at hok
      simp only [Except.ok.injEq] at hok
      rw [← hok]
      exact hlen
  · unfold getRepositories
    rw [reposFrom_agrees api api' hagree 10 1 (by omega) (by omega)]

theorem getRepositories_witness :
    ([({ name := "demo-repo", stargazers_count := 0 } : Repository)]).length ≤ 1000 := by
  have h2 : reposFrom onePageApi 2 = [] := by
    rw [reposFrom_go onePageApi 2 (by norm_num)]
    simp [onePageApi]
  have h1 : reposFrom onePageApi 1 =
      [{ name := "demo-repo", stargazers_count := 0 }] := by
    rw [reposFrom_go onePageApi 1 (by norm_num)]
    simp [onePageApi, h2]
  exact (getRepositories_spec onePageApi onePageApi
    (fun p => by by_cases h : p = 1 <;> simp [onePageApi, h])
    (fun _ _ _ => rfl)).1 [{ name := "demo-repo", stargazers_count := 0 }]
    (by rw [getRepositories, h1]; simp)

theorem getOr0_setAdd (m : List (String × Nat)) (k k' : String) (v : Nat) :
    getOr0 (setAdd m k v) k' = getOr0 m k' + (if k' = k then v else 0) := by
  induction m with
  | nil =>
    by_cases h : k' = k
    · subst h
      simp [getOr0, setAdd, List.find?]
    · have hb : (k == k') = false := by
        simp [beq_iff_eq]
        exact fun he => h he.symm
      simp [getOr0, setAdd, List.find?, hb, h]
  | cons hd tl ih =>
    obtain ⟨a, b⟩ := hd
    by_cases hak : a = k
    · subst hak
      by_cases hk' : a = k'
      · subst hk'
        simp [getOr0, setAdd, List.find?]
      · have hb : (a == k') = false := by simp [beq_iff_eq, hk']
        have hne : k' ≠ a := fun he => hk' he.symm
        simp [getOr0, setAdd, List.find?, hb, hne]
    · by_cases hk' : a = k'
      · subst hk'
        simp [getOr0, setAdd, List.find?, hak]
      · have hb : (a == k') = false := by simp [beq_iff_eq, hk']
        have h1 : getOr0 ((a, b) :: setAdd tl k v) k' = getOr0 (setAdd tl k v) k' := by
          simp [getOr0, List.find?, hb]
        have h2 : getOr0 ((a, b) :: tl) k' = getOr0 tl k' := by
          simp [getOr0, List.find?, hb]
        simp [setAdd, hak, h1, h2, ih]

theorem restGetLanguages_inner (lang : String) :
    ∀ (entries : List (String × Nat)) (m : List (String × Nat)),
      getOr0 (entries.foldl (fun st p => setAdd st p.1 p.2) m) lang =
        getOr0 m lang + ((entries.filter (fun p => p.1 == lang)).map (fun p => p.2)).sum := by
  intro entries
  induction entries with
  | nil => simp
  | cons hd tl ih =>
    intro m
    obtain ⟨k, v⟩ := hd
    rw [List.foldl_cons, ih, getOr0_setAdd]
    by_cases h : lang = k
    · subst h
      simp [List.filter_cons]
      omega
    · have hb : (k == lang) = false := by simp [beq_iff_eq]; exact fun he => h he.symm
      simp [List.filter_cons, hb, h]

theorem restGetLanguages_getOr0 (lang : String) :
    ∀ (repos : List AccountRepo) (m : List (String × Nat)),
      getOr0 (repos.foldl
        (fun languageStats repo =>
          repo.languages.foldl (fun st p => setAdd st p.1 p.2) languageStats) m) lang =
        getOr0 m lang + bytesOfLanguage repos lang := by
  intro repos
  induction repos with
  | nil => simp [bytesOfLanguage]
  | cons r rs ih =>
    intro m
    rw [List.foldl_cons, ih, restGetLanguages_inner]
    simp [bytesOfLanguage]
    omega

theorem graphqlGetLanguages_getOr0 (lang : String) :
    ∀ (repos : List AccountRepo) (m : List (String × Nat)),
      getOr0 (repos.foldl
        (fun languageStats repo =>
          match repo.primaryLanguage with
          | none => languageStats
          | some l => setAdd languageStats l repo.commitContribCount) m) lang =
        getOr0 m lang + contribCountOfLanguage repos lang := by
  intro repos
  induction repos with
  | nil => simp [contribCountOfLanguage]
  | cons r rs ih =>
    intro m
    rw [List.foldl_cons, ih]
    cases hp : r.primaryLanguage with
    | none =>
      have hb : (r.primaryLanguage == some lang) = false := by rw [hp]; rfl
      simp [contribCountOfLanguage, List.filter_cons, hb]
    | some l =>
      rw [getOr0_setAdd]
      by_cases h : l = lang
      · subst h
        have hb : (r.primaryLanguage == some l) = true := by rw [hp]; simp
        simp [contribCountOfLanguage, List.filter_cons, hb]
        omega
      · have hb : (r.primaryLanguage == some lang) = false := by
          rw [hp]
          simp [beq_iff_eq, h]
        have hne : lang ≠ l := fun he => h he.symm
        simp [contribCountOfLanguage, List.filter_cons, hb, hne]

/-- Claim C3 counterexample: on the one-repository account with 500 bytes
of TypeScript and 3 commit contributions, the GraphQL getLanguages returns
3 for TypeScript, not the 500-byte count the common contract states. -/
theorem getLanguages_contract_counterexample :
    ¬ (getOr0 (graphqlGetLanguages c3Account) "TypeScript" =
        bytesOfLanguage c3Account "TypeScript") := by decide

/-- Claim C3 (amended): the REST getLanguages satisfies the byte-count
contract (each language maps to the sum over the repositories of that
language's bytes), but the GraphQL getLanguages returns a different
quantity: the sum of commit-contribution counts of the repositories whose
primary language it is. -/
theorem getLanguages_amended_spec (repos : List AccountRepo) (lang : String) :
    getOr0 (restGetLanguages repos) lang = bytesOfLanguage repos lang ∧
    getOr0 (graphqlGetLanguages repos) lang = contribCountOfLanguage repos lang := by
  constructor
  · rw [restGetLanguages, restGetLanguages_getOr0]
    simp [getOr0]
  · rw [graphqlGetLanguages, graphqlGetLanguages_getOr0]
    simp [getOr0]

theorem bumpAt_length (l : List Nat) (i : Nat) : (bumpAt l i).length = l.length := by
  induction l generalizing i with
  | nil => rfl
  | cons x xs ih =>
    cases i with
    | zero => rfl
    | succ n => simp [bumpAt, ih]

theorem bumpAt_getD (l : List Nat) (i j : Nat) (hi : i < l.length) :
    (bumpAt l i).getD j 0 = if i = j then l.getD j 0 + 1 else l.getD j 0 := by
  induction l generalizing i j with
  | nil => simp at hi
  | cons x xs ih =>
    cases i with
    | zero =>
      cases j with
      | zero => simp [bumpAt]
      | succ m => simp [bumpAt]
    | succ n =>
      cases j with
      | zero => simp [bumpAt]
      | succ m =>
        have hn : n < xs.length := by simpa using hi
        have e : bumpAt (x :: xs) (n + 1) = x :: bumpAt xs n := rfl
        rw [e, List.getD_cons_succ, List.getD_cons_succ, ih n m hn]
        by_cases h : n = m <;> simp [h]

theorem histFold_length (commits : List Commit) :
    ∀ acc : List Nat,
      (commits.foldl (fun l c => bumpAt l (getHours c.commit.author.date)) acc).length =
        acc.length := by
  induction commits with
  | nil => intro acc; rfl
  | cons c cs ih =>
    intro acc
    rw [List.foldl_cons, ih, bumpAt_length]

theorem histFold_getD (commits : List Commit) :
    ∀ acc : List Nat, acc.length = 24 → ∀ h,
      (commits.foldl (fun l c => bumpAt l (getHours c.commit.author.date)) acc).getD h 0 =
        acc.getD h 0 + commits.countP (fun c => decide (getHours c.commit.author.date = h)) := by
  induction commits with
  | nil => intro acc _ h; simp
  | cons c cs ih =>
    intro acc hacc h
    have hlt : getHours c.commit.author.date < acc.length := by
      rw [hacc]
      exact Nat.mod_lt _ (by norm_num)
    rw [List.foldl_cons, ih (bumpAt acc (getHours c.commit.author.date))
      (by rw [bumpAt_length, hacc]) h, bumpAt_getD acc _ h hlt, List.countP_cons]
    by_cases he : getHours c.commit.author.date = h <;> simp [he] <;> omega

theorem replicate_getD_zero (n h : Nat) : (List.replicate n 0).getD h 0 = 0 := by
  induction n generalizing h with
  | zero => simp
  | succ m ih =>
    cases h with
    | zero => simp [List.replicate]
    | succ k => simp [List.replicate, ih]

theorem foldl_max_init_le (l : List Nat) : ∀ a, a ≤ l.foldl Nat.max a := by
  induction l with
  | nil => intro a; exact Nat.le_refl a
  | cons x xs ih =>
    intro a
    exact le_trans (Nat.le_max_left a x) (ih (Nat.max a x))

theorem foldl_max_mem_le (l : List Nat) : ∀ a x, x ∈ l → x ≤ l.foldl Nat.max a := by
  induction l with
  | nil => intro a x hx; simp at hx
  | cons y ys ih =>
    intro a x hx
    rcases List.mem_cons.mp hx with h | h
    · subst h
      exact le_trans (Nat.le_max_right a x) (foldl_max_init_le ys (Nat.max a x))
    · exact ih (Nat.max a y) x h

theorem foldl_max_cases (l : List Nat) : ∀ a, l.foldl Nat.max a = a ∨ l.foldl Nat.max a ∈ l := by
  induction l with
  | nil => intro a; exact Or.inl rfl
  | cons x xs ih =>
    intro a
    rcases ih (Nat.max a x) with h | h
    · rcases Nat.le_total a x with hax | hax
      · have hm : Nat.max a x = x := Nat.max_eq_right hax
        right; rw [List.foldl_cons, h, hm]; exact List.mem_cons_self x xs
      · have hm : Nat.max a x = a := Nat.max_eq_left hax
        left; rw [List.foldl_cons, h, hm]
    · right
      exact List.mem_cons_of_mem x h

theorem foldl_max_zero_mem (l : List Nat) (h : l ≠ []) : l.foldl Nat.max 0 ∈ l := by
  rcases foldl_max_cases l 0 with h0 | hmem
  · cases l with
    | nil => exact absurd rfl h
    | cons x xs =>
      have hx : x ≤ (x :: xs).foldl Nat.max 0 :=
        foldl_max_mem_le (x :: xs) 0 x (List.mem_cons_self x xs)
      rw [h0] at hx
      have : x = 0 := Nat.le_zero.mp hx
      rw [h0, ← this]
      exact List.mem_cons_self x xs
  · exact hmem

theorem idxOfN_lt_length (a : Nat) (l : List Nat) (h : a ∈ l) : idxOfN a l < l.length := by
  induction l with
  | nil => simp at h
  | cons b bs ih =>
    by_cases hb : b = a
    · simp [idxOfN, hb]
    · rcases List.mem_cons.mp h with h1 | h1
      · exact absurd h1.symm hb
      · simp only [idxOfN, hb, if_false, List.length_cons]
        exact Nat.succ_lt_succ (ih h1)

theorem getD_idxOfN (a : Nat) (l : List Nat) (h : a ∈ l) : l.getD (idxOfN a l) 0 = a := by
  induction l with
  | nil => simp at h
  | cons b bs ih =>
    by_cases hb : b = a
    · simp [idxOfN, hb]
    · rcases List.mem_cons.mp h with h1 | h1
      · exact absurd h1.symm hb
      · have e : idxOfN a (b :: bs) = idxOfN a bs + 1 := by simp [idxOfN, hb]
        rw [e, List.getD_cons_succ, ih h1]

theorem getD_before_idxOfN (a : Nat) (l : List Nat) :
    ∀ j, j < idxOfN a l → l.getD j 0 ≠ a := by
  induction l with
  | nil => intro j hj; simp [idxOfN] at hj
  | cons b bs ih =>
    intro j hj
    by_cases hb : b = a
    · simp [idxOfN, hb] at hj
    · cases j with
      | zero => simpa using hb
      | succ m =>
        simp only [idxOfN, hb, if_false] at hj
        simpa using ih m (Nat.lt_of_succ_lt_succ hj)

theorem getD_mem_of_lt (l : List Nat) : ∀ h, h < l.length → l.getD h 0 ∈ l := by
  induction l with
  | nil => intro h hh; simp at hh
  | cons x xs ih =>
    intro h hh
    cases h with
    | zero => simp
    | succ m =>
      have : m < xs.length := by simpa using hh
      simpa using Or.inr (ih m this)

/-- Claim C7: calculatePeakHour buckets the commits into 24 hourly bins by
the hour of each commit's author date and returns an hour below 24 whose
bin count is maximal, the smallest such hour on ties; for an empty commit
list it returns 0.  The bin of hour h is the number of commits whose
author-date hour is h. -/
theorem calculatePeakHour_spec (commits : List Commit) :
    calculatePeakHour commits < 24 ∧
    (∀ h, h < 24 →
      commits.countP (fun c => decide (getHours c.commit.author.date = h)) ≤
        commits.countP (fun c =>
          decide (getHours c.commit.author.date = calculatePeakHour commits))) ∧
    (∀ h, h < calculatePeakHour commits →
      commits.countP (fun c => decide (getHours c.commit.author.date = h)) <
        commits.countP (fun c =>
          decide (getHours c.commit.author.date = calculatePeakHour commits))) ∧
    (commits = [] → calculatePeakHour commits = 0) := by
  have hlen : (hourCountsOf commits).length = 24 := by
    rw [hourCountsOf, histFold_length, List.length_replicate]
  have hne : hourCountsOf commits ≠ [] := by
    intro h
    rw [h] at hlen
    simp at hlen
  have hbin : ∀ h, (hourCountsOf commits).getD h 0 =
      commits.countP (fun c => decide (getHours c.commit.author.date = h)) := by
    intro h
    rw [hourCountsOf, histFold_getD commits (List.replicate 24 0) (by simp) h,
      replicate_getD_zero]
    omega
  have hmax_mem : (hourCountsOf commits).foldl Nat.max 0 ∈ hourCountsOf commits :=
    foldl_max_zero_mem (hourCountsOf commits) hne
  have hpeak : calculatePeakHour commits =
      idxOfN ((hourCountsOf commits).foldl Nat.max 0) (hourCountsOf commits) := rfl
  have hlt : calculatePeakHour commits < 24 := by
    rw [hpeak, ← hlen]
    exact idxOfN_lt_length _ _ hmax_mem
  have hpeakbin : (hourCountsOf commits).getD (calculatePeakHour commits) 0 =
      (hourCountsOf commits).foldl Nat.max 0 := by
    rw [hpeak]
    exact getD_idxOfN _ _ hmax_mem
  refine ⟨hlt, ?_, ?_, ?_⟩
  · intro h hh
    rw [← hbin, ← hbin, hpeakbin]
    exact foldl_max_mem_le _ 0 _ (getD_mem_of_lt _ h (by omega))
  · intro h hh
    have hh24 : h < 24 := lt_trans hh hlt
    have hle : (hourCountsOf commits).getD h 0 ≤ (hourCountsOf commits).foldl Nat.max 0 :=
      foldl_max_mem_le _ 0 _ (getD_mem_of_lt _ h (by omega))
    have hne2 : (hourCountsOf commits).getD h 0 ≠ (hourCountsOf commits).foldl Nat.max 0 := by
      rw [hpeak] at hh
      exact getD_before_idxOfN _ _ h hh
    rw [← hbin, ← hbin, hpeakbin]
    omega
  · intro h
    subst h
    decide

theorem insertLe_perm {α : Type} (le : α → α → Bool) (a : α) :
    ∀ l : List α, (insertLe le a l).Perm (a :: l) := by
  intro l
  induction l with
  | nil => exact List.Perm.refl _
  | cons b bs ih =>
    by_cases h : le a b
    · rw [insertLe, if_pos h]
    · rw [insertLe, if_neg h]
      exact (ih.cons b).trans (List.Perm.swap a b bs)

theorem sortByLe_perm {α : Type} (le : α → α → Bool) :
    ∀ l : List α, (sortByLe le l).Perm l := by
  intro l
  induction l with
  | nil => exact List.Perm.refl _
  | cons a as ih =>
    rw [sortByLe]
    exact (insertLe_perm le a (sortByLe le as)).trans (ih.cons a)

theorem insertLe_pairwise {α : Type} (le : α → α → Bool)
    (htrans : ∀ a b c, le a b = true → le b c = true → le a c = true)
    (htot : ∀ a b, le a b = true ∨ le b a = true) (a : α) :
    ∀ l : List α, l.Pairwise (fun x y => le x y = true) →
      (insertLe le a l).Pairwise (fun x y => le x y = true) := by
  intro l
  induction l with
  | nil => intro _; simp [insertLe]
  | cons b bs ih =>
    intro hl
    rcases List.pairwise_cons.mp hl with ⟨hb, hbs⟩
    by_cases h : le a b
    · rw [insertLe, if_pos h]
      refine List.pairwise_cons.mpr ⟨?_, hl⟩
      intro y hy
      rcases List.mem_cons.mp hy with h1 | h1
      · rw [h1]; exact h
      · exact htrans a b y h (hb y h1)
    · rw [insertLe, if_neg h]
      refine List.pairwise_cons.mpr ⟨?_, ih hbs⟩
      intro y hy
      have hy' : y ∈ a :: bs := (insertLe_perm le a bs).mem_iff.mp hy
      rcases List.mem_cons.mp hy' with h1 | h1
      · rw [h1]
        rcases htot a b with h2 | h2
        · exact absurd h2 h
        · exact h2
      · exact hb y h1

theorem sortByLe_pairwise {α : Type} (le : α → α → Bool)
    (htrans : ∀ a b c, le a b = true → le b c = true → le a c = true)
    (htot : ∀ a b, le a b = true ∨ le b a = true) :
    ∀ l : List α, (sortByLe le l).Pairwise (fun x y => le x y = true) := by
  intro l
  induction l with
  | nil => simp [sortByLe]
  | cons a as ih =>
    rw [sortByLe]
    exact insertLe_pairwise le htrans htot a (sortByLe le as) ih


/-- Claim C6: for every non-empty byte-count map, calculateTopLanguages
returns at most 5 languages, sorted by non-increasing byte count, every
returned byte count is at least every omitted entry's byte count, and each
returned percentage is the entry's bytes divided by the total of all byte
counts, times 100. -/
theorem calculateTopLanguages_spec (languageStats : List (String × Nat))
    (hne : languageStats ≠ []) :
    (calculateTopLanguages languageStats).length ≤ 5 ∧
    (calculateTopLanguages languageStats).Pairwise (fun a b => b.bytes ≤ a.bytes) ∧
    (∀ x ∈ calculateTopLanguages languageStats, ∀ p ∈ languageStats,
      (∀ y ∈ calculateTopLanguages languageStats, y.name ≠ p.1) → p.2 ≤ x.bytes) ∧
    (∀ x ∈ calculateTopLanguages languageStats,
      x.percentage =
        ((x.bytes : ℚ) / (((languageStats.map (fun p => p.2)).sum : Nat) : ℚ)) * 100) := by
  clear hne
  have htrans : ∀ a b c : Language', decide (b.bytes ≤ a.bytes) = true →
      decide (c.bytes ≤ b.bytes) = true → decide (c.bytes ≤ a.bytes) = true := by
    intro a b c h1 h2
    simp only [decide_eq_true_eq] at h1 h2 ⊢
    omega
  have htot : ∀ a b : Language',
      decide (b.bytes ≤ a.bytes) = true ∨ decide (a.bytes ≤ b.bytes) = true := by
    intro a b
    simp only [decide_eq_true_eq]
    omega
  have hsorted := sortByLe_pairwise (fun (a b : Language') => decide (b.bytes ≤ a.bytes))
    htrans htot (languageStats.map (mkLangEntry (totalBytes languageStats)))
  have hperm := sortByLe_perm (fun (a b : Language') => decide (b.bytes ≤ a.bytes))
    (languageStats.map (mkLangEntry (totalBytes languageStats)))
  refine ⟨?_, ?_, ?_, ?_⟩
  · rw [calculateTopLanguages, List.length_take]
    exact min_le_left _ _
  · have h2 := List.Pairwise.sublist (List.take_sublist 5 _) hsorted
    rw [calculateTopLanguages]
    exact h2.imp (fun h => by simpa using h)
  · intro x hx p hp hnames
    have hfpL : mkLangEntry (totalBytes languageStats) p ∈
        languageStats.map (mkLangEntry (totalBytes languageStats)) :=
      List.mem_map_of_mem _ hp
    have hfps := hperm.mem_iff.mpr hfpL
    rw [← List.take_append_drop 5 (sortByLe (fun (a b : Language') =>
      decide (b.bytes ≤ a.bytes))
      (languageStats.map (mkLangEntry (totalBytes languageStats))))] at hfps hsorted
    rw [calculateTopLanguages] at hx hnames
    rcases List.mem_append.mp hfps with hin | hin
    · exact absurd rfl (hnames _ hin)
    · rcases List.pairwise_append.mp hsorted with ⟨-, -, hcross⟩
      have hx' := hcross x hx _ hin
      simpa [mkLangEntry] using hx'
  · intro x hx
    rw [calculateTopLanguages] at hx
    have hxL := hperm.mem_iff.mp (List.mem_of_mem_take hx)
    rcases List.mem_map.mp hxL with ⟨p, hp, hfp⟩
    rw [← hfp]
    rfl

theorem calculateTopLanguages_witness :
    (calculateTopLanguages [("TypeScript", 300), ("Go", 100)]).length ≤ 5 :=
  (calculateTopLanguages_spec [("TypeScript", 300), ("Go", 100)] (by decide)).1

theorem prefB_append (y z : List Char) : prefB y (y ++ z) = true := by
  induction y with
  | nil => rfl
  | cons c cs ih => simp [prefB, ih]

theorem subL_of_prefB (y l : List Char) (h : prefB y l = true) : subL y l = true := by
  cases l with
  | nil => rw [subL]; exact h
  | cons b bs => rw [subL, h, Bool.true_or]

theorem subL_here (y z : List Char) : subL y (y ++ z) = true :=
  subL_of_prefB y (y ++ z) (prefB_append y z)

theorem subL_append_left (x : List Char) (l y : List Char) (h : subL y l = true) :
    subL y (x ++ l) = true := by
  induction x with
  | nil => exact h
  | cons c cs ih =>
    rw [List.cons_append, subL, ih, Bool.or_true]

theorem strContains_mid (a u b : String) : strContains (a ++ u ++ b) u = true := by
  rw [strContains]
  have h : (a ++ u ++ b).toList = a.toList ++ (u.toList ++ b.toList) := by
    simp [String.toList, String.data_append]
  rw [h]
  exact subL_append_left a.toList _ u.toList (subL_here u.toList b.toList)

theorem userNotFound_contains_username (u : String) :
    strContains (userNotFoundMsg u) u = true :=
  strContains_mid "GitHub user \"" u "\" not found. Please check the username and try again."

theorem userNotFound_contains_notfound (u : String) :
    strContains (userNotFoundMsg u) "not found" = true := by
  rw [strContains, userNotFoundMsg]
  have h : ("GitHub user \"" ++ u ++
        "\" not found. Please check the username and try again.").toList =
      "GitHub user \"".toList ++ (u.toList ++
        "\" not found. Please check the username and try again.".toList) := by
    simp [String.toList, String.data_append]
  rw [h]
  refine subL_append_left _ _ _ (subL_append_left _ _ _ ?_)
  decide

set_option maxRecDepth 40000 in
theorem userNotFoundMsg_ne_auth (u : String) : userNotFoundMsg u ≠ authRequiredMsg := by
  intro h
  have h1 := userNotFound_contains_notfound u
  rw [h] at h1
  exact absurd h1 (by decide)

theorem userNotFoundMsg_ne_gqlRate (u : String) : userNotFoundMsg u ≠ gqlRateLimitMsg := by
  intro h
  have h1 := userNotFound_contains_notfound u
  rw [h] at h1
  exact absurd h1 (by decide)

theorem userNotFoundMsg_ne_restRate (u : String) : userNotFoundMsg u ≠ restRateLimitMsg := by
  intro h
  have h1 := userNotFound_contains_notfound u
  rw [h] at h1
  exact absurd h1 (by decide)

theorem mapGraphQLError_rateLimit (username message : String)
    (hAuth : strContains message "AUTHENTICATION REQUIRED" = false)
    (hNF : strContains message "NOT_FOUND" = false)
    (hRes : strContains message "Could not resolve to a User" = false)
    (hBad : strContains message "Bad credentials" = false) :
    mapGraphQLError username (some 403) message = gqlRateLimitMsg := by
  rw [mapGraphQLError]
  simp [hAuth, hNF, hRes, hBad]

theorem promptTokenWithRetry_some {α : Type} (fetchData : String → Except String α) :
    ∀ (inputs : List String) (value : α),
      promptTokenWithRetry fetchData inputs = some value →
        ∃ t ∈ inputs, t ≠ "" ∧ fetchData t = Except.ok value := by
  intro inputs
  induction inputs with
  | nil => intro value h; simp [promptTokenWithRetry] at h
  | cons t rest ih =>
    intro value h
    rw [promptTokenWithRetry] at h
    by_cases ht : t = ""
    · rw [if_pos ht] at h
      exact absurd h (by simp)
    · rw [if_neg ht] at h
      cases hf : fetchData t with
      | ok v =>
        rw [hf] at h
        simp only [Option.some.injEq] at h
        exact ⟨t, List.mem_cons_self t rest, ht, by rw [hf, h]⟩
      | error e =>
        rw [hf] at h
        rcases ih value h with ⟨t', ht', hne, hok⟩
        exact ⟨t', List.mem_cons_of_mem t ht', hne, hok⟩

theorem promptTokenWithRetry_emptyToken {α : Type} (fetchData : String → Except String α)
    (rest : List String) : promptTokenWithRetry fetchData ("" :: rest) = none := by
  rw [promptTokenWithRetry]
  simp

theorem promptTokenWithRetry_allFail {α : Type} (fetchData : String → Except String α) :
    ∀ inputs : List String, (∀ t ∈ inputs, ∃ e, fetchData t = Except.error e) →
      promptTokenWithRetry fetchData inputs = none := by
  intro inputs
  induction inputs with
  | nil => intro _; rfl
  | cons t rest ih =>
    intro h
    rw [promptTokenWithRetry]
    by_cases ht : t = ""
    · rw [if_pos ht]
    · rw [if_neg ht]
      rcases h t (List.mem_cons_self t rest) with ⟨e, he⟩
      rw [he]
      exact ih (fun t' ht' => h t' (List.mem_cons_of_mem t ht'))

set_option maxRecDepth 40000 in
theorem mapGraphQLError_auth (username : String) :
    mapGraphQLError username none authRequiredMsg = authRequiredMsg := by
  rw [mapGraphQLError]
  rw [if_pos (show strContains authRequiredMsg "AUTHENTICATION REQUIRED" = true by decide)]

set_option maxRecDepth 40000 in
/-- Claim C2: the three fetch-layer failure modes map to distinct
user-facing errors (404 / unresolvable user to a message naming the
username as not found, a missing contributionsCollection to the
authentication-required message, 403 / rate limit to a rate-limit
message), and only a message mentioning the rate limit or 403 sends the
CLI into the token prompt loop, which re-invokes the fetch until it
succeeds or the user types an empty token. -/
theorem github_error_handling_spec (username message : String) (ud : UserData)
    (hud : ud.contributionsCollection = none)
    (hAuth : strContains message "AUTHENTICATION REQUIRED" = false)
    (hNF : strContains message "NOT_FOUND" = false)
    (hRes : strContains message "Could not resolve to a User" = false)
    (hBad : strContains message "Bad credentials" = false) :
    restGetUserError username (some 404) message = userNotFoundMsg username ∧
    strContains (userNotFoundMsg username) username = true ∧
    strContains (userNotFoundMsg username) "not found" = true ∧
    getCompleteStats username (Except.ok (some ud)) = Except.error authRequiredMsg ∧
    strContains authRequiredMsg "AUTHENTICATION REQUIRED" = true ∧
    restGetUserError username (some 403) message = restRateLimitMsg ∧
    mapGraphQLError username (some 403) message = gqlRateLimitMsg ∧
    strContains restRateLimitMsg "rate limit" = true ∧
    strContains gqlRateLimitMsg "rate limit" = true ∧
    (∀ (status : Option Nat) (m : String),
      strContains m "AUTHENTICATION REQUIRED" = false →
      strContains m "Could not resolve to a User" = true →
      mapGraphQLError username status m = userNotFoundMsg username) ∧
    (userNotFoundMsg username ≠ authRequiredMsg ∧
      userNotFoundMsg username ≠ gqlRateLimitMsg ∧
      userNotFoundMsg username ≠ restRateLimitMsg ∧
      authRequiredMsg ≠ gqlRateLimitMsg) ∧
    (∀ (α : Type) (value : α),
      initialFetchDispatch (Except.ok value) = MainOutcome.done value) ∧
    (∀ (α : Type) (msg : String),
      @initialFetchDispatch α (Except.error msg) = MainOutcome.promptLoop msg ↔
        shouldPromptToken msg = true) ∧
    (∀ (α : Type) (fetchData : String → Except String α) (inputs : List String) (value : α),
      promptTokenWithRetry fetchData inputs = some value →
        ∃ t ∈ inputs, t ≠ "" ∧ fetchData t = Except.ok value) ∧
    (∀ (α : Type) (fetchData : String → Except String α) (rest : List String),
      promptTokenWithRetry fetchData ("" :: rest) = none) ∧
    (∀ (α : Type) (fetchData : String → Except String α) (inputs : List String),
      (∀ t ∈ inputs, ∃ e, fetchData t = Except.error e) →
        promptTokenWithRetry fetchData inputs = none) := by
  refine ⟨rfl, userNotFound_contains_username username,
    userNotFound_contains_notfound username, ?_, by decide, rfl,
    mapGraphQLError_rateLimit username message hAuth hNF hRes hBad, by decide, by decide, ?_,
    ⟨userNotFoundMsg_ne_auth username, userNotFoundMsg_ne_gqlRate username,
      userNotFoundMsg_ne_restRate username, by decide⟩,
    fun α value => rfl, ?_,
    fun α fetchData inputs value h => promptTokenWithRetry_some fetchData inputs value h,
    fun α fetchData rest => promptTokenWithRetry_emptyToken fetchData rest,
    fun α fetchData inputs h => promptTokenWithRetry_allFail fetchData inputs h⟩
  · rw [getCompleteStats]
    rw [hud]
    rw [mapGraphQLError_auth]
  · intro status m hA hR
    rw [mapGraphQLError]
    simp [hA, hR]
  · intro α msg
    rw [initialFetchDispatch]
    by_cases h : shouldPromptToken msg
    · simp [h]
    · simp [h]

theorem github_error_handling_witness :
    mapGraphQLError "octocat" (some 403) "boom" = gqlRateLimitMsg :=
  (github_error_handling_spec "octocat" "boom" { contributionsCollection := none }
    rfl (by decide) (by decide) (by decide) (by decide)).2.2.2.2.2.2.1

theorem trailLen_concat_pos {α : Type} (p : α → Bool) (l : List α) (a : α) (h : p a = true) :
    trailLen p (l ++ [a]) = trailLen p l + 1 := by
  rw [trailLen, trailLen, List.reverse_append]
  simp [List.takeWhile_cons, h]

theorem trailLen_concat_neg {α : Type} (p : α → Bool) (l : List α) (a : α) (h : p a = false) :
    trailLen p (l ++ [a]) = 0 := by
  rw [trailLen, List.reverse_append]
  simp [List.takeWhile_cons, h]

theorem foldl_streakStepB_fst {α : Type} (p : α → Bool) :
    ∀ l : List α, (l.foldl (streakStepB p) (0, 0)).1 = trailLen p l := by
  intro l
  induction l using List.reverseRecOn with
  | nil => rfl
  | append_singleton l a ih =>
    rw [List.foldl_append, List.foldl_cons, List.foldl_nil]
    cases hpa : p a with
    | false =>
      rw [trailLen_concat_neg p l a hpa]
      have hstep : streakStepB p (List.foldl (streakStepB p) (0, 0) l) a =
          (0, (List.foldl (streakStepB p) (0, 0) l).2) := by
        rw [streakStepB, if_neg (by simp [hpa])]
      rw [hstep]
    | true =>
      rw [trailLen_concat_pos p l a hpa]
      have hstep : streakStepB p (List.foldl (streakStepB p) (0, 0) l) a =
          ((List.foldl (streakStepB p) (0, 0) l).1 + 1,
            max (List.foldl (streakStepB p) (0, 0) l).2
              ((List.foldl (streakStepB p) (0, 0) l).1 + 1)) := by
        rw [streakStepB, if_pos hpa]
      rw [hstep]
      show (List.foldl (streakStepB p) (0, 0) l).1 + 1 = trailLen p l + 1
      rw [ih]

theorem tailIn_trailTake {α : Type} (p : α → Bool) (l : List α) :
    tailIn ((l.reverse.takeWhile p).reverse) l :=
  ⟨(l.reverse.dropWhile p).reverse, by
    rw [← List.reverse_append, List.takeWhile_append_dropWhile, List.reverse_reverse]⟩

theorem trailTake_all {α : Type} (p : α → Bool) (l : List α) :
    ∀ x ∈ (l.reverse.takeWhile p).reverse, p x = true := by
  intro x hx
  exact List.mem_takeWhile_imp (List.mem_reverse.mp hx)

theorem prefix_all_le_takeWhile {α : Type} (p : α → Bool) :
    ∀ (s r w : List α), s ++ w = r → (∀ x ∈ s, p x = true) →
      s.length ≤ (r.takeWhile p).length := by
  intro s
  induction s with
  | nil => intro r w _ _; simp
  | cons c cs ih =>
    intro r w h hall
    rw [← h, List.cons_append, List.takeWhile_cons,
      hall c (List.mem_cons_self c cs)]
    have := ih (cs ++ w) w rfl (fun x hx => hall x (List.mem_cons_of_mem c hx))
    simp
    omega

theorem tailIn_all_le_trailLen {α : Type} (p : α → Bool) (t l : List α) (h : tailIn t l)
    (hall : ∀ x ∈ t, p x = true) : t.length ≤ trailLen p l := by
  rcases h with ⟨u, hu⟩
  have hrev : t.reverse ++ u.reverse = l.reverse := by rw [← List.reverse_append, hu]
  have hp := prefix_all_le_takeWhile p t.reverse l.reverse u.reverse hrev
    (fun x hx => hall x (List.mem_reverse.mp hx))
  simpa [trailLen] using hp

theorem runIn_concat {α : Type} (t l : List α) (a : α) (h : runIn t l) :
    runIn t (l ++ [a]) := by
  rcases h with ⟨u, v, huv⟩
  exact ⟨u, v ++ [a], by rw [← huv]; simp [List.append_assoc]⟩

theorem tailIn_runIn {α : Type} (t l : List α) (h : tailIn t l) : runIn t l := by
  rcases h with ⟨u, hu⟩
  exact ⟨u, [], by simp [hu]⟩

theorem tailIn_concat {α : Type} (t l : List α) (a : α) (h : tailIn t l) :
    tailIn (t ++ [a]) (l ++ [a]) := by
  rcases h with ⟨u, hu⟩
  exact ⟨u, by rw [← List.append_assoc, hu]⟩

theorem runIn_concat_cases {α : Type} (t l : List α) (a : α) (h : runIn t (l ++ [a])) :
    runIn t l ∨ tailIn t (l ++ [a]) := by
  rcases h with ⟨u, v, huv⟩
  rcases List.eq_nil_or_concat v with hv | ⟨v', x, hv⟩
  · subst hv
    right
    exact ⟨u, by simpa using huv⟩
  · subst hv
    left
    have h2 : (u ++ t ++ v') ++ [x] = l ++ [a] := by
      rw [← huv, List.concat_eq_append]
      simp [List.append_assoc]
    have h3 := congrArg List.dropLast h2
    rw [List.dropLast_concat, List.dropLast_concat] at h3
    exact ⟨u, v', h3⟩

theorem tailIn_concat_mem {α : Type} (t l : List α) (a : α) (h : tailIn t (l ++ [a]))
    (hne : t ≠ []) : a ∈ t := by
  rcases h with ⟨u, hu⟩
  rcases List.eq_nil_or_concat t with ht | ⟨t', b, ht⟩
  · exact absurd ht hne
  · subst ht
    have h2 : (u ++ t') ++ [b] = l ++ [a] := by
      rw [← hu, List.concat_eq_append]
      simp [List.append_assoc]
    have h3 := congrArg List.getLast? h2
    rw [List.getLast?_concat, List.getLast?_concat] at h3
    have hba : b = a := Option.some.inj h3
    rw [List.concat_eq_append, hba]
    exact List.mem_append_right t' (List.mem_singleton.mpr rfl)

theorem foldl_streakStepB_snd {α : Type} (p : α → Bool) :
    ∀ l : List α,
      (∃ t, runIn t l ∧ (∀ x ∈ t, p x = true) ∧
        t.length = (l.foldl (streakStepB p) (0, 0)).2) ∧
      (∀ t, runIn t l → (∀ x ∈ t, p x = true) →
        t.length ≤ (l.foldl (streakStepB p) (0, 0)).2) := by
  intro l
  induction l using List.reverseRecOn with
  | nil =>
    constructor
    · exact ⟨[], ⟨[], [], rfl⟩, by simp, rfl⟩
    · intro t ht _
      rcases ht with ⟨u, v, huv⟩
      have h1 : u ++ t ++ v = [] := huv
      have h2 : t = [] := by
        rcases List.append_eq_nil.mp h1 with ⟨h3, -⟩
        rcases List.append_eq_nil.mp h3 with ⟨-, h4⟩
        exact h4
      simp [h2]
  | append_singleton l a ih =>
    have hfold : ((l ++ [a]).foldl (streakStepB p) (0, 0)) =
        streakStepB p (l.foldl (streakStepB p) (0, 0)) a := by
      rw [List.foldl_append, List.foldl_cons, List.foldl_nil]
    rcases ih with ⟨⟨t0, h0r, h0p, h0len⟩, hub⟩
    cases hpa : p a with
    | false =>
      have hsnd : ((l ++ [a]).foldl (streakStepB p) (0, 0)).2 =
          (l.foldl (streakStepB p) (0, 0)).2 := by
        have hstep : streakStepB p (List.foldl (streakStepB p) (0, 0) l) a =
            (0, (List.foldl (streakStepB p) (0, 0) l).2) := by
          rw [streakStepB, if_neg (by simp [hpa])]
        rw [hfold, hstep]
      constructor
      · exact ⟨t0, runIn_concat _ _ _ h0r, h0p, by rw [hsnd]; exact h0len⟩
      · intro t ht hall
        rw [hsnd]
        rcases runIn_concat_cases _ _ _ ht with h | h
        · exact hub t h hall
        · by_cases hte : t = []
          · simp [hte]
          · have ha := tailIn_concat_mem _ _ _ h hte
            have hcontr := hall a ha
            rw [hpa] at hcontr
            exact absurd hcontr (by simp)
    | true =>
      have hfst := foldl_streakStepB_fst p l
      have hsnd : ((l ++ [a]).foldl (streakStepB p) (0, 0)).2 =
          max (l.foldl (streakStepB p) (0, 0)).2 (trailLen p l + 1) := by
        have hstep : streakStepB p (List.foldl (streakStepB p) (0, 0) l) a =
            ((List.foldl (streakStepB p) (0, 0) l).1 + 1,
              max (List.foldl (streakStepB p) (0, 0) l).2
                ((List.foldl (streakStepB p) (0, 0) l).1 + 1)) := by
          rw [streakStepB, if_pos hpa]
        rw [hfold, hstep, hfst]
      constructor
      · by_cases hc : trailLen p l + 1 ≤ (l.foldl (streakStepB p) (0, 0)).2
        · have hm : max (l.foldl (streakStepB p) (0, 0)).2 (trailLen p l + 1) =
              (l.foldl (streakStepB p) (0, 0)).2 := Nat.max_eq_left hc
          exact ⟨t0, runIn_concat _ _ _ h0r, h0p, by rw [hsnd, hm]; exact h0len⟩
        · have hm : max (l.foldl (streakStepB p) (0, 0)).2 (trailLen p l + 1) =
              trailLen p l + 1 := Nat.max_eq_right (by omega)
          refine ⟨(l.reverse.takeWhile p).reverse ++ [a],
            tailIn_runIn _ _ (tailIn_concat _ _ _ (tailIn_trailTake p l)), ?_, ?_⟩
          · intro x hx
            rcases List.mem_append.mp hx with h | h
            · exact trailTake_all p l x h
            · rw [List.mem_singleton.mp h]
              exact hpa
          · rw [hsnd, hm, List.length_append, List.length_reverse]
            rfl
      · intro t ht hall
        rw [hsnd]
        rcases runIn_concat_cases _ _ _ ht with h | h
        · exact le_trans (hub t h hall) (Nat.le_max_left _ _)
        · have hle := tailIn_all_le_trailLen p t (l ++ [a]) h hall
          rw [trailLen_concat_pos p l a hpa] at hle
          exact le_trans hle (Nat.le_max_right _ _)

/-- Claim C1: for every list of contribution days, calculateStreak returns
longest equal to the length of the longest run of consecutive entries with
count > 0 in the date-sorted list (witness run plus upper bound over all
contiguous all-active segments), and current equal to the length of the
trailing all-active run at the end of the sorted list (witness suffix plus
upper bound over all all-active suffixes; in particular it is 0 when the
list is empty or the last sorted entry has count 0). -/
theorem calculateStreak_spec (contributions : List ContributionDay) :
    ((∃ t, runIn t (sortContributions contributions) ∧ (∀ c ∈ t, 0 < c.count) ∧
        t.length = (calculateStreak contributions).longest) ∧
      (∀ t, runIn t (sortContributions contributions) → (∀ c ∈ t, 0 < c.count) →
        t.length ≤ (calculateStreak contributions).longest)) ∧
    ((∃ t, tailIn t (sortContributions contributions) ∧ (∀ c ∈ t, 0 < c.count) ∧
        t.length = (calculateStreak contributions).current) ∧
      (∀ t, tailIn t (sortContributions contributions) → (∀ c ∈ t, 0 < c.count) →
        t.length ≤ (calculateStreak contributions).current)) := by
  obtain ⟨⟨t0, h0r, h0p, h0len⟩, hub⟩ :=
    foldl_streakStepB_snd countPos (sortContributions contributions)
  refine ⟨⟨⟨t0, h0r, ?_, h0len⟩, ?_⟩, ⟨(sortContributions contributions).reverse.takeWhile
    countPos |>.reverse, tailIn_trailTake _ _, ?_, ?_⟩, ?_⟩
  · intro c hc
    have := h0p c hc
    simpa [countPos] using this
  · intro t ht hall
    exact hub t ht (fun c hc => by simpa [countPos] using hall c hc)
  · intro c hc
    have := trailTake_all countPos (sortContributions contributions) c hc
    simpa [countPos] using this
  · exact List.length_reverse _
  · intro t ht hall
    exact tailIn_all_le_trailLen countPos t _ ht
      (fun c hc => by simpa [countPos] using hall c hc)

theorem calculateStreak_witness :
    ∃ t, runIn t (sortContributions [⟨0, 1⟩, ⟨1, 0⟩, ⟨2, 3⟩]) ∧ (∀ c ∈ t, 0 < c.count) ∧
      t.length = (calculateStreak [⟨0, 1⟩, ⟨1, 0⟩, ⟨2, 3⟩]).longest :=
  (calculateStreak_spec [⟨0, 1⟩, ⟨1, 0⟩, ⟨2, 3⟩]).1.1

theorem determineArchetype_witness :
    determineArchetype 5 0 0 [] = { name := "The Midnight Warrior" } :=
  (determineArchetype_spec 5 0 0 []).2

theorem calculateAchievements_witness :
    ((calculateAchievements ⟨none, none, none, none, none, none⟩).map (fun a => a.id)).Nodup :=
  (calculateAchievements_spec ⟨none, none, none, none, none, none⟩).2.2.2.2.2

theorem calculatePeakHour_witness : calculatePeakHour [] < 24 :=
  (calculatePeakHour_spec []).1

theorem getLanguages_amended_witness :
    getOr0 (restGetLanguages c3Account) "TypeScript" = bytesOfLanguage c3Account "TypeScript" :=
  (getLanguages_amended_spec c3Account "TypeScript").1
